import Mathlib

/-!
A shallow embedding of the reward-distribution core of the indy-rewards
repository (modules `time_utils`, `models`, `config`, `sp/distribution`,
`lp/distribution`), together with theorems settling the frozen claims
about it.

Modelling conventions:
- A Python `datetime.date` is an integer number of days since 1970-01-01
  (UTC); `daysFromCivil` converts a calendar date to that number.
- A Python `datetime.datetime` / unix timestamp is an integer number of
  seconds since 1970-01-01T00:00:00 UTC.
- Python `float` quantities are modelled as exact rationals `ℚ`.
- Python functions that can raise return `Except String α`; a raised
  exception is `Except.error msg`.  Messages keep the source text except
  that interpolated runtime values are elided.
- Python dicts are association lists in insertion order; Python sets of
  `IAsset` are `Finset IAsset`.
- Results of external HTTP API calls (the `analytics_api` and
  `volatility` modules) are explicit inputs, bundled in `SpApi` / `LpApi`
  structures of day-indexed data.
-/

/- Rational arithmetic is `@[irreducible]` in Batteries; restore
reducibility locally so that concrete computations can be settled by
`decide`. -/
attribute [local semireducible] Rat.add Rat.mul Rat.inv Rat.sub Rat.ofScientific

/-- Days since 1970-01-01 of the proleptic-Gregorian calendar date y-m-d
(the standard civil-from-days conversion; `datetime.date(y, m, d)`). -/
def daysFromCivil (y m d : ℤ) : ℤ :=
  let y := if m ≤ 2 then y - 1 else y
  let era := y.fdiv 400
  let yoe := y - era * 400
  let mp := if m ≤ 2 then m + 9 else m - 3
  let doy := (153 * mp + 2).fdiv 5 + d - 1
  let doe := yoe * 365 + yoe.fdiv 4 - yoe.fdiv 100 + doy
  era * 146097 + doe - 719468

/-- ASCII lower-casing of a character (`str.lower` restricted to the
ASCII names that occur in the enums). -/
def asciiLower (c : Char) : Char :=
  if 65 ≤ c.toNat ∧ c.toNat ≤ 90 then Char.ofNat (c.toNat + 32) else c

/-- Case-insensitive string comparison, `a.lower() == b.lower()`. -/
def lowerEqv (a b : String) : Bool :=
  a.data.map asciiLower == b.data.map asciiLower

/-- Python 3 `round(q)`: round half to even. -/
def round_half_even (q : ℚ) : ℤ :=
  let f := q.floor
  let r := q - f
  if r < 1/2 then f
  else if 1/2 < r then f + 1
  else if f % 2 = 0 then f else f + 1

/-! ## `models.py` -/

/-- `IAsset` enum; members in declaration order `iUSD`, `iBTC`, `iETH`. -/
inductive IAsset
  | iUSD
  | iBTC
  | iETH
deriving DecidableEq, Repr, Fintype

/-- `IAsset.name` of the enum member. -/
def IAsset.name : IAsset → String
  | .iUSD => "iUSD"
  | .iBTC => "iBTC"
  | .iETH => "iETH"

/-- The enum members in declaration order (`for member in cls`). -/
def IAsset.members : List IAsset := [.iUSD, .iBTC, .iETH]

/-- `IAsset.from_str`: first member whose name matches case-insensitively;
`ValueError` otherwise. -/
def IAsset.from_str (s : String) : Except String IAsset :=
  match IAsset.members.find? (fun m => lowerEqv m.name s) with
  | some m => .ok m
  | none => .error ("Invalid IAsset: " ++ s)

/-- `Dex` enum. -/
inductive Dex
  | Minswap
  | MuesliSwap
  | WingRiders
deriving DecidableEq, Repr

def Dex.name : Dex → String
  | .Minswap => "Minswap"
  | .MuesliSwap => "MuesliSwap"
  | .WingRiders => "WingRiders"

/-- `LiquidityPool` frozen dataclass. -/
structure LiquidityPool where
  dex : Dex
  iasset : IAsset
  other_asset_name : String
  lp_token_id : String
deriving DecidableEq, Repr

/-- `LiquidityPoolStatus` frozen dataclass (timestamp in unix seconds). -/
structure LiquidityPoolStatus where
  lp : LiquidityPool
  iasset_balance : ℚ
  lp_token_circ_supply : Option ℤ
  lp_token_staked : Option ℤ
  timestamp : ℤ
deriving DecidableEq, Repr

/-- `IAssetReward` frozen dataclass (BaseReward fields `indy`, `day`,
then `iasset`). -/
structure IAssetReward where
  indy : ℚ
  day : ℤ
  iasset : IAsset
deriving DecidableEq, Repr

/-- `LiquidityPoolReward` frozen dataclass. -/
structure LiquidityPoolReward where
  indy : ℚ
  day : ℤ
  lp : LiquidityPool
deriving DecidableEq, Repr

/-- `IndividualReward` frozen dataclass (expiration in unix seconds). -/
structure IndividualReward where
  indy : ℚ
  day : ℤ
  pkh : String
  expiration : ℤ
  description : String
deriving DecidableEq, Repr

/-- `BaseReward.get_indy_lovelaces`: `round(self.indy * 1_000_000)`. -/
def get_indy_lovelaces (r : IndividualReward) : ℤ :=
  round_half_even (r.indy * 1000000)

/-! ## `time_utils.py` -/

/-- Date of the "0th" epoch, `2017-09-23`. -/
def ref_date : ℤ := daysFromCivil 2017 9 23

/-- `get_snapshot_time`: the day at 21:45:00 UTC, in unix seconds. -/
def get_snapshot_time (day : ℤ) : ℤ := day * 86400 + (21 * 60 + 45) * 60

/-- `date_to_epoch`: `((date - _ref_date).days - 1) // 5`. -/
def date_to_epoch (d : ℤ) : ℤ := (d - ref_date - 1).fdiv 5

/-- `get_epoch_end_date`: `_ref_date + (epoch + 1) * 5 days`. -/
def get_epoch_end_date (e : ℤ) : ℤ := ref_date + (e + 1) * 5

/-- `get_epoch_snapshot_dates`: `[end - x for x in range(4, -1, -1)]`. -/
def get_epoch_snapshot_dates (e : ℤ) : List ℤ :=
  [4, 3, 2, 1, 0].map (fun x => get_epoch_end_date e - x)

/-- `get_reward_expiration`: 21:45 UTC on
`get_epoch_end_date(date_to_epoch(day)) + 90 days`, in unix seconds. -/
def get_reward_expiration (day : ℤ) : ℤ :=
  get_snapshot_time (get_epoch_end_date (date_to_epoch day) + 90)

/-! ## `config.py` -/

/-- `IASSET_LAUNCH_DATES`. -/
def iasset_launch_date : IAsset → ℤ
  | .iUSD => daysFromCivil 2022 11 21
  | .iBTC => daysFromCivil 2022 11 21
  | .iETH => daysFromCivil 2023 1 6

/-- `get_active_iassets`: iAssets launched on or before `day`. -/
def get_active_iassets (day : ℤ) : Finset IAsset :=
  Finset.univ.filter (fun x => iasset_launch_date x ≤ day)

/-- `get_new_iassets`: active iAssets less than 6 epochs old. -/
def get_new_iassets (day : ℤ) : Finset IAsset :=
  Finset.univ.filter (fun x =>
    x ∈ get_active_iassets day ∧
      date_to_epoch day < date_to_epoch (iasset_launch_date x) + 6)

/-! ## `sp/distribution.py`

External data (`analytics_api`, `volatility.get_all_volatilities`) is
passed in explicitly through `SpApi`: each field is the day-indexed (or
timestamp-indexed) response of the corresponding API call. -/

/-- One record of `analytics_api.raw.rewards_stability_pool`. -/
structure SpAccount where
  owner : String
  asset : String
  iasset_staked : ℚ
  opened_at : ℤ
deriving DecidableEq, Repr

/-- A record after `_merge_duplicate_accounts` (no `opened_at`). -/
structure SpMergedAccount where
  owner : String
  asset : String
  iasset_staked : ℚ
deriving DecidableEq, Repr

/-- External inputs of the stability-pool distribution pipeline. -/
structure SpApi where
  accounts : ℤ → List SpAccount
  saturations : ℤ → List (IAsset × ℚ)
  market_caps : ℤ → List (IAsset × ℚ)
  volatilities : ℤ → List (IAsset × ℚ)

/-- Python dict lookup `d[k]` on an association list (`KeyError` when
missing). -/
def dict_get (l : List (IAsset × ℚ)) (k : IAsset) : Except String ℚ :=
  match l.find? (fun p => p.1 == k) with
  | some p => .ok p.2
  | none => .error "KeyError"

/-- The key set of an association list. -/
def dict_keys (l : List (IAsset × ℚ)) : Finset IAsset :=
  (l.map Prod.fst).toFinset

/-- `_is_at_least_24h_old`, with the iSOL whitelisting exception. -/
def is_at_least_24h_old (a : SpAccount) (snapshot_day : ℤ) : Bool :=
  if snapshot_day < daysFromCivil 2024 11 27 ∧ a.asset = "iSOL" then true
  else a.opened_at + 86400 ≤ get_snapshot_time snapshot_day

/-- One step of `_merge_duplicate_accounts`: add the record `a` to the
accumulated dict keyed by `(owner, asset)`. -/
def merge_step (acc : List SpMergedAccount) (a : SpAccount) :
    List SpMergedAccount :=
  if acc.any (fun m => m.owner == a.owner && m.asset == a.asset) then
    acc.map (fun m =>
      if m.owner = a.owner ∧ m.asset = a.asset then
        { m with iasset_staked := m.iasset_staked + a.iasset_staked }
      else m)
  else acc ++ [⟨a.owner, a.asset, a.iasset_staked⟩]

/-- `_merge_duplicate_accounts`: merge records sharing `(owner, asset)`,
summing `iasset_staked`, keeping first-insertion order. -/
def merge_duplicate_accounts (l : List SpAccount) : List SpMergedAccount :=
  l.foldl merge_step []

/-- `_get_unique_iassets` (a `ValueError` of `IAsset.from_str`
propagates). -/
def get_unique_iassets : List SpMergedAccount → Except String (Finset IAsset)
  | [] => .ok ∅
  | a :: rest => do
    let ia ← IAsset.from_str a.asset
    let s ← get_unique_iassets rest
    .ok (insert ia s)

/-- `_validate_keys`. -/
def validate_keys (saturations market_caps : List (IAsset × ℚ))
    (volatilities : Option (List (IAsset × ℚ))) : Except String Unit :=
  match volatilities with
  | some v =>
    if dict_keys saturations ≠ dict_keys market_caps ∨
        dict_keys market_caps ≠ dict_keys v ∨
        dict_keys saturations ≠ dict_keys v then
      .error "Keys dont match"
    else .ok ()
  | none =>
    if dict_keys saturations ≠ dict_keys market_caps then
      .error "Keys dont match"
    else .ok ()

/-- `_get_vol_inverse_sum`. -/
def get_vol_inverse_sum (volatilities : List (IAsset × ℚ))
    (has_stakers : Finset IAsset) : Except String ℚ :=
  volatilities.foldlM (fun acc p =>
    if p.2 < 0 then .error "Negative volatility"
    else if p.2 = 0 then .error "Zero volatility"
    else if p.1 ∈ has_stakers then .ok (acc + 1 / p.2)
    else .ok acc) 0

/-- `_get_sat_inverse_sum` (Python divides `1 / sat` only for assets
with stakers that are not new; a zero such saturation raises
`ZeroDivisionError`). -/
def get_sat_inverse_sum (saturations : List (IAsset × ℚ))
    (has_stakers new_iassets : Finset IAsset) : Except String ℚ :=
  saturations.foldlM (fun acc p =>
    if p.2 < 0 ∨ 1 < p.2 then .error "Invalid saturation"
    else if p.1 ∉ new_iassets ∧ p.1 ∈ has_stakers then
      if p.2 = 0 then .error "ZeroDivisionError"
      else .ok (acc + 1 / p.2)
    else .ok acc) 0

/-- `_get_mcap_sum`: sums market caps of all non-new assets (no
staker condition). -/
def get_mcap_sum (market_caps : List (IAsset × ℚ))
    (new_iassets : Finset IAsset) : Except String ℚ :=
  market_caps.foldlM (fun acc p =>
    if p.2 ≤ 0 then .error "Market cap is zero or less"
    else if p.1 ∉ new_iassets then .ok (acc + p.2)
    else .ok acc) 0

/-- `_get_volatility_term`. -/
def get_volatility_term (iasset : IAsset)
    (volatilities : List (IAsset × ℚ)) (has_stakers : Finset IAsset) :
    Except String ℚ := do
  let vol_inverse_sum ← get_vol_inverse_sum volatilities has_stakers
  if 0 < vol_inverse_sum ∧ iasset ∈ has_stakers then do
    let v ← dict_get volatilities iasset
    .ok ((1 / v) / vol_inverse_sum)
  else .ok 0

/-- `_calculate_weight`.  `volatilities` is the
`volatility.get_all_volatilities(day)` response, consulted only when
`use_volatility` holds. -/
def calculate_weight (iasset : IAsset) (saturations : List (IAsset × ℚ))
    (day : ℤ) (market_caps : List (IAsset × ℚ))
    (new_iassets has_stakers : Finset IAsset)
    (volatilities : List (IAsset × ℚ)) : Except String ℚ := do
  let sat_inverse_sum ← get_sat_inverse_sum saturations has_stakers new_iassets
  let mcap_sum ← get_mcap_sum market_caps new_iassets
  let terms ←
    if iasset ∉ new_iassets ∧ iasset ∈ has_stakers then do
      let s ← dict_get saturations iasset
      let m ← dict_get market_caps iasset
      pure ((1 / s) / sat_inverse_sum, m / mcap_sum)
    else
      pure ((0 : ℚ), (0 : ℚ))
  let saturation_term := terms.1
  let market_cap_term := terms.2
  let first_no_volatility_day := daysFromCivil 2023 5 26
  let use_volatility :=
    day < first_no_volatility_day ∨ new_iassets.Nonempty ∨
      (sat_inverse_sum ≤ 0 ∨ mcap_sum ≤ 0)
  let volatility_term : Option ℚ ←
    if use_volatility then do
      let vt ← get_volatility_term iasset volatilities has_stakers
      pure (some vt)
    else pure none
  validate_keys saturations market_caps
    (if use_volatility then some volatilities else none)
  if 0 < sat_inverse_sum ∧ 0 < mcap_sum then
    if use_volatility then
      match volatility_term with
      | none => .error "Want to use volatility part, but its None"
      | some vt =>
        if vt ≤ 0 then .error "Volatility part is <= 0"
        else .ok ((vt + saturation_term + market_cap_term) / 3)
    else .ok ((saturation_term + market_cap_term) / 2)
  else if iasset ∈ new_iassets then
    match volatility_term with
    | some vt =>
      if 0 < vt then .ok vt
      else .error "Would rely on volatility only, but its <= 0"
    | none => .error "Would rely on volatility only, but its <= 0"
  else .error ("Cant determine stability pool weight for " ++ iasset.name)

/-- The per-asset loop of `get_pool_weights_before_epoch_448`: an asset
with no stakers gets explicit weight 0; otherwise `_calculate_weight`
runs and a zero result raises. -/
def pool_weights_loop (saturations : List (IAsset × ℚ)) (day : ℤ)
    (market_caps : List (IAsset × ℚ)) (new_iassets has_stakers : Finset IAsset)
    (volatilities : List (IAsset × ℚ)) :
    List (IAsset × ℚ) → Except String (List (IAsset × ℚ))
  | [] => .ok []
  | p :: rest =>
    if p.1 ∉ has_stakers then do
      let tail ← pool_weights_loop saturations day market_caps new_iassets
        has_stakers volatilities rest
      .ok ((p.1, 0) :: tail)
    else do
      let w ← calculate_weight p.1 saturations day market_caps new_iassets
        has_stakers volatilities
      if w = 0 then .error ("Zero weight for " ++ p.1.name)
      else do
        let tail ← pool_weights_loop saturations day market_caps new_iassets
          has_stakers volatilities rest
        .ok ((p.1, w) :: tail)

/-- `get_pool_weights_before_epoch_448`: the legacy formula, with its
final sum-to-1 check (tolerance `1e-8`). -/
def get_pool_weights_before_epoch_448 (saturations market_caps : List (IAsset × ℚ))
    (day : ℤ) (new_iassets has_stakers : Finset IAsset)
    (volatilities : List (IAsset × ℚ)) : Except String (List (IAsset × ℚ)) := do
  let weights ← pool_weights_loop saturations day market_caps new_iassets
    has_stakers volatilities saturations
  let total := (weights.map Prod.snd).sum
  if |total - 1| > 1 / 100000000 then .error "Sum of weights is not 1"
  else .ok weights

/-- `get_pool_weights`: hard-coded date-keyed weight tables, falling back
to the legacy formula for days before 2023-11-06.  The table entries
evaluate `IAsset.from_str` on each key (including `"isol"`). -/
def get_pool_weights (saturations market_caps : List (IAsset × ℚ))
    (day : ℤ) (new_iassets has_stakers : Finset IAsset)
    (volatilities : List (IAsset × ℚ)) : Except String (List (IAsset × ℚ)) :=
  if daysFromCivil 2024 12 5 ≤ day then do
    let ibtc ← IAsset.from_str "ibtc"
    let ieth ← IAsset.from_str "ieth"
    let iusd ← IAsset.from_str "iusd"
    let isol ← IAsset.from_str "isol"
    .ok [(ibtc, 3606.19 / 21189.77), (ieth, 1176.91 / 21189.77),
         (iusd, 15406.67 / 21189.77), (isol, 1000.00 / 21189.77)]
  else if daysFromCivil 2024 11 26 ≤ day then do
    let ibtc ← IAsset.from_str "ibtc"
    let ieth ← IAsset.from_str "ieth"
    let iusd ← IAsset.from_str "iusd"
    let isol ← IAsset.from_str "isol"
    .ok [(ibtc, 2469.29 / 19664.35), (ieth, 1504.89 / 19664.35),
         (iusd, 14690.17 / 19664.35), (isol, 1000.00 / 19664.35)]
  else if daysFromCivil 2024 7 14 ≤ day then do
    let ibtc ← IAsset.from_str "ibtc"
    let ieth ← IAsset.from_str "ieth"
    let iusd ← IAsset.from_str "iusd"
    .ok [(ibtc, 2469.29 / 18664.35), (ieth, 1504.89 / 18664.35),
         (iusd, 14690.17 / 18664.35)]
  else if daysFromCivil 2023 11 6 ≤ day then do
    let ibtc ← IAsset.from_str "ibtc"
    let ieth ← IAsset.from_str "ieth"
    let iusd ← IAsset.from_str "iusd"
    .ok [(ibtc, 3668 / 22431), (ieth, 3188 / 22431), (iusd, 15574 / 22431)]
  else
    get_pool_weights_before_epoch_448 saturations market_caps day
      new_iassets has_stakers volatilities

/-- `sp.get_rewards_per_pool`. -/
def sp_get_rewards_per_pool (api : SpApi) (day : ℤ) (epoch_indy : ℚ)
    (iassets_with_stakers : Finset IAsset) :
    Except String (List IAssetReward) := do
  let saturations := api.saturations day
  let market_caps := api.market_caps day
  let new_iassets := get_new_iassets day
  let pool_weights ← get_pool_weights saturations market_caps day
    new_iassets iassets_with_stakers (api.volatilities day)
  let daily_indy := epoch_indy / 5
  .ok (pool_weights.map (fun p => ⟨p.2 * daily_indy, day, p.1⟩))

/-- `_check_each_iasset_has_stakers`. -/
def check_each_iasset_has_stakers (stability_pool_rewards : List IAssetReward)
    (account_balances : List SpMergedAccount) : Except String Unit :=
  stability_pool_rewards.foldlM (fun _ r =>
    if r.indy = 0 then .ok ()
    else if account_balances.any (fun a => a.asset == r.iasset.name) then .ok ()
    else .error (r.iasset.name ++ " SP has INDY rewards, but doesnt have stakers.")) ()

/-- `_check_each_account_has_reward` (runs over the unfiltered account
list; `IAsset.from_str` may itself raise here). -/
def check_each_account_has_reward (rewarded_iassets : List IAsset)
    (account_balances : List SpAccount) : Except String Unit :=
  account_balances.foldlM (fun _ a => do
    let ia ← IAsset.from_str a.asset
    if ia ∈ rewarded_iassets then .ok ()
    else .error (ia.name ++ " is SP staked, but cant get rewards")) ()

/-- `_pro_rata_distribute`: `weight / total * indy_to_distribute` per
account; a zero weight total raises `ZeroDivisionError` on the first
account. -/
def pro_rata_distribute (indy_to_distribute : ℚ)
    (accounts : List (String × ℚ)) (day : ℤ) (comment : String) :
    Except String (List IndividualReward) :=
  let total := (accounts.map Prod.snd).sum
  accounts.mapM (fun p =>
    if total = 0 then .error "ZeroDivisionError"
    else .ok ⟨p.2 / total * indy_to_distribute, day, p.1,
      get_reward_expiration day, comment⟩)

/-- The dict comprehension selecting one pool's accounts inside
`sp.get_rewards_per_staker` (`IAsset.from_str(x["asset"]) == iasset`). -/
def iasset_accounts_of (target : IAsset) :
    List SpMergedAccount → Except String (List (String × ℚ))
  | [] => .ok []
  | x :: rest => do
    let ia ← IAsset.from_str x.asset
    let tail ← iasset_accounts_of target rest
    .ok (if ia = target then (x.owner, x.iasset_staked) :: tail else tail)

/-- `sp.get_rewards_per_staker`: filter by account age, merge duplicate
accounts, compute per-pool rewards, split each pool pro rata, and check
the reward count. -/
def sp_get_rewards_per_staker (api : SpApi) (day : ℤ) (epoch_indy : ℚ) :
    Except String (List IndividualReward) := do
  let all_accounts := api.accounts (get_snapshot_time day)
  let eligible_accounts := merge_duplicate_accounts
    (all_accounts.filter (fun a => is_at_least_24h_old a day))
  let iassets_with_stakers ← get_unique_iassets eligible_accounts
  let rewards_per_pool ← sp_get_rewards_per_pool api day epoch_indy
    iassets_with_stakers
  let rewarded_iassets := rewards_per_pool.map (fun r => r.iasset)
  check_each_iasset_has_stakers rewards_per_pool eligible_accounts
  check_each_account_has_reward rewarded_iassets all_accounts
  let rewards ← rewards_per_pool.foldlM (fun acc pool_reward => do
    let iasset_accounts ← iasset_accounts_of pool_reward.iasset
      eligible_accounts
    let rs ← pro_rata_distribute pool_reward.indy iasset_accounts day
      ("SP reward for " ++ pool_reward.iasset.name)
    pure (acc ++ rs)) []
  if rewards.length ≠ eligible_accounts.length then
    .error "Accounts from API differ from reward items"
  else .ok rewards

/-- `sp.get_epoch_rewards_per_staker`: concatenation of the five daily
distributions, with no further check. -/
def sp_get_epoch_rewards_per_staker (api : SpApi) (epoch : ℤ)
    (epoch_indy : ℚ) : Except String (List IndividualReward) :=
  (get_epoch_snapshot_dates epoch).foldlM (fun acc day => do
    let rs ← sp_get_rewards_per_staker api day epoch_indy
    pure (acc ++ rs)) []

/-! ## `lp/distribution.py`

External data is passed in through `LpApi`; `dex_saturations` stands for
`saturation.get_saturations(day)` (computed from further API data in
`lp/saturation.py`, outside the claims considered here). -/

/-- External inputs of the liquidity-pool distribution pipeline. -/
structure LpApi where
  prices : ℤ → List (IAsset × ℚ)
  total_supplies : ℤ → List (IAsset × ℚ)
  dex_saturations : ℤ → List (IAsset × ℚ)
  lp_status : ℤ → List LiquidityPoolStatus
  staked_lp_tokens : ℤ → List (LiquidityPool × List (String × ℚ))

/-- Python dict lookup on a `LiquidityPool`-keyed association list. -/
def staker_info_get (l : List (LiquidityPool × List (String × ℚ)))
    (k : LiquidityPool) : Except String (List (String × ℚ)) :=
  match l.find? (fun p => p.1 == k) with
  | some p => .ok p.2
  | none => .error "KeyError"

/-- `_calculate_k`: the LP weighting formula.  `b` are saturations, `c`
prices, `d` total supplies; divisions that Python would fail on
(`ZeroDivisionError`) are explicit errors. -/
def calculate_k (a : ℚ) (b c d : List (IAsset × ℚ)) :
    Except String (List (IAsset × ℚ)) := do
  if ¬(dict_keys b = dict_keys c ∧ dict_keys c = dict_keys d ∧
      dict_keys b = dict_keys d) then
    .error "k formula input dict key mismatch"
  else do
    let m_values ← b.mapM (fun p =>
      if p.2 = 0 then .error "ZeroDivisionError" else pure (1 / p.2))
    let m_sum := m_values.sum
    if m_sum = 0 then .error "ZeroDivisionError"
    else do
      let o_values ← b.mapM (fun p => do
        let ci ← dict_get c p.1
        let di ← dict_get d p.1
        pure (ci * di))
      let o_sum := o_values.sum
      if o_sum = 0 then .error "ZeroDivisionError"
      else
        .ok ((b.zip (m_values.zip o_values)).map (fun p =>
          (p.1.1, (a / 5) * ((p.2.1 / m_sum + p.2.2 / o_sum) / 2))))

/-- `lp.get_iassets_daily_indy`. -/
def lp_get_iassets_daily_indy (api : LpApi) (day : ℤ) (epoch_indy : ℚ) :
    Except String (List IAssetReward) := do
  let prices := api.prices day
  let total_supplies := api.total_supplies day
  let dex_saturations := api.dex_saturations day
  let iasset_indy ← calculate_k epoch_indy dex_saturations prices total_supplies
  .ok (iasset_indy.map (fun p => ⟨p.2, day, p.1⟩))

/-- The balance total of `_distribute_to_iasset_group.sum_iasset`. -/
def sum_iasset (iasset : IAsset) (lp_statuses : List LiquidityPoolStatus) : ℚ :=
  ((lp_statuses.filter (fun st => st.lp.iasset == iasset)).map
    (fun st => st.iasset_balance)).sum

/-- The `for stat in lp_statuses` loop of `_distribute_to_iasset_group`
(`total` is the asset's whole-group balance computed up front). -/
def distribute_to_iasset_group_loop (iasset_reward : IAssetReward)
    (total : ℚ) (day : ℤ) :
    List LiquidityPoolStatus → Except String (List LiquidityPoolReward)
  | [] => .ok []
  | stat :: rest =>
    if stat.lp.iasset = iasset_reward.iasset then
      if total = 0 then .error "ZeroDivisionError"
      else do
        let tail ← distribute_to_iasset_group_loop iasset_reward total day rest
        .ok (⟨iasset_reward.indy * (stat.iasset_balance / total), day,
          stat.lp⟩ :: tail)
    else distribute_to_iasset_group_loop iasset_reward total day rest

/-- `_distribute_to_iasset_group`: split one asset's budget across its
pools proportional to `iasset_balance`. -/
def distribute_to_iasset_group (iasset_reward : IAssetReward)
    (lp_statuses : List LiquidityPoolStatus) (day : ℤ) :
    Except String (List LiquidityPoolReward) :=
  distribute_to_iasset_group_loop iasset_reward
    (sum_iasset iasset_reward.iasset lp_statuses) day lp_statuses

/-- `distribute_to_liquidity_pools`. -/
def distribute_to_liquidity_pools (iasset_rewards : List IAssetReward)
    (lp_statuses : List LiquidityPoolStatus) (day : ℤ) :
    Except String (List LiquidityPoolReward) :=
  iasset_rewards.foldlM (fun acc r => do
    let rs ← distribute_to_iasset_group r lp_statuses day
    pure (acc ++ rs)) []

/-- `lp.distribute_to_accounts`: split each pool's budget across its LP
token stakers. -/
def lp_distribute_to_accounts (api : LpApi) (day : ℤ)
    (iassets_daily_rewards : List IAssetReward) :
    Except String (List IndividualReward) := do
  let lp_daily_status := api.lp_status day
  let pool_rewards ← distribute_to_liquidity_pools iassets_daily_rewards
    lp_daily_status day
  let staker_info := api.staked_lp_tokens day
  pool_rewards.foldlM (fun acc pr => do
    let stakers ← staker_info_get staker_info pr.lp
    let total_staked := (stakers.map Prod.snd).sum
    let rs ← stakers.mapM (fun s =>
      if total_staked = 0 then .error "ZeroDivisionError"
      else .ok (⟨pr.indy * s.2 / total_staked, pr.day, s.1,
        get_reward_expiration pr.day,
        "Reward for providing " ++ pr.lp.iasset.name ++ " liquidity on " ++
          pr.lp.dex.name⟩ : IndividualReward))
    pure (acc ++ rs)) []

/-- `lp.get_rewards_per_staker`. -/
def lp_get_rewards_per_staker (api : LpApi) (day : ℤ) (epoch_indy : ℚ) :
    Except String (List IndividualReward) := do
  let iassets_daily_rewards ← lp_get_iassets_daily_indy api day epoch_indy
  lp_distribute_to_accounts api day iassets_daily_rewards

/-- `lp.get_epoch_rewards_per_staker`: five daily distributions plus the
`check_sum` comparison of the lovelace total against the nominal epoch
budget (tolerance 0.01). -/
def lp_get_epoch_rewards_per_staker (api : LpApi) (epoch : ℤ)
    (epoch_indy : ℚ) : Except String (List IndividualReward) := do
  let rewards ← (get_epoch_snapshot_dates epoch).foldlM (fun acc day => do
    let rs ← lp_get_rewards_per_staker api day epoch_indy
    pure (acc ++ rs)) []
  let indy_sum := (((rewards.map get_indy_lovelaces).sum : ℤ) : ℚ) / 1000000
  if |epoch_indy - indy_sum| > 0.01 then
    .error "Lovelace based LP epoch sum differs from nominal sum"
  else .ok rewards

/-- Whether an `Except` value is an error (a raised exception). -/
def except_is_error {α : Type} : Except String α → Bool
  | .error _ => true
  | .ok _ => false

/-- The `(owner, asset)` dict key of a merged account record. -/
def merged_key (m : SpMergedAccount) : String × String := (m.owner, m.asset)

/-- Total staked amount of the records with key `(o, s)`. -/
def key_weight (l : List SpMergedAccount) (o s : String) : ℚ :=
  ((l.filter (fun m => m.owner == o && m.asset == s)).map
    (fun m => m.iasset_staked)).sum

/-- Total staked amount of the raw API records with key `(o, s)`. -/
def key_weight_src (l : List SpAccount) (o s : String) : ℚ :=
  ((l.filter (fun m => m.owner == o && m.asset == s)).map
    (fun m => m.iasset_staked)).sum

/-- A concrete stability-pool API state: one old account per asset,
constant across days. -/
def exSpApi : SpApi :=
  ⟨fun _ => [⟨"alice", "iUSD", 10, 0⟩, ⟨"bob", "iBTC", 5, 0⟩,
    ⟨"carol", "iETH", 2, 0⟩],
   fun _ => [], fun _ => [], fun _ => []⟩

/-- A concrete liquidity-pool API state: a single iUSD pool with one
staker. -/
def exLpPool : LiquidityPool := ⟨Dex.Minswap, IAsset.iUSD, "ADA", "tok"⟩

def exLpApi : LpApi :=
  ⟨fun _ => [(IAsset.iUSD, 1)], fun _ => [(IAsset.iUSD, 1)],
   fun _ => [(IAsset.iUSD, 1/2)],
   fun _ => [⟨exLpPool, 10, none, none, 0⟩],
   fun _ => [(exLpPool, [("staker1", 5)])]⟩

/-! ## Helper lemmas -/

deriving instance DecidableEq for Except

theorem except_bind_ok {α β : Type} (a : α) (f : α → Except String β) :
    (Except.ok a : Except String α) >>= f = f a := rfl

theorem except_bind_error {α β : Type} (e : String) (f : α → Except String β) :
    (Except.error e : Except String α) >>= f = Except.error e := rfl

/-- A `mapM` whose function succeeds pointwise is the matching `map`. -/
theorem mapM_ok_of_forall {α β : Type} (f : α → Except String β) (g : α → β)
    (l : List α) (h : ∀ a ∈ l, f a = .ok (g a)) :
    l.mapM f = .ok (l.map g) := by
  induction l with
  | nil => rfl
  | cons a l ih =>
    rw [List.mapM_cons, h a (by simp), except_bind_ok,
      ih (fun x hx => h x (List.mem_cons_of_mem _ hx)), except_bind_ok]
    rfl

/-! ## C8 -/

/-- C8: `date_to_epoch (get_epoch_end_date e) = e` for every integer
epoch; `date_to_epoch` maps 2023-03-22 to epoch 401, whose end date is
2023-03-26. -/
theorem C8_date_epoch_round_trip :
    (∀ e : ℤ, date_to_epoch (get_epoch_end_date e) = e) ∧
    date_to_epoch (daysFromCivil 2023 3 22) = 401 ∧
    get_epoch_end_date 401 = daysFromCivil 2023 3 26 := by
  refine ⟨fun e => ?_, by decide, by decide⟩
  unfold date_to_epoch get_epoch_end_date
  have h : ref_date + (e + 1) * 5 - ref_date - 1 = 4 + e * 5 := by ring
  rw [h, Int.fdiv_eq_ediv _ (by norm_num),
    Int.add_mul_ediv_right _ _ (by norm_num)]
  omega

/-! ## C2

The docstring of `_calculate_k` promises
`{iUSD: 437.49, iETH: 270.37, iBTC: 250.65}` on the example inputs, but
the formula itself yields
`{iUSD: 1086547/2482 ≈ 437.77, iETH: 335650/1241 ≈ 270.47,
iBTC: 622391/2482 ≈ 250.76}`. -/

/-- C2 counterexample: on the documented example inputs the function
returns values that differ from every documented value by more than the
0.01 tolerance. -/
theorem C2_counterexample :
    calculate_k 4795
      [(IAsset.iUSD, 0.6), (IAsset.iETH, 0.7), (IAsset.iBTC, 0.8)]
      [(IAsset.iBTC, 60000), (IAsset.iUSD, 2.7), (IAsset.iETH, 4000)]
      [(IAsset.iETH, 1200), (IAsset.iUSD, 4000000), (IAsset.iBTC, 80)] =
      .ok [(IAsset.iUSD, 1086547/2482), (IAsset.iETH, 335650/1241),
        (IAsset.iBTC, 622391/2482)] ∧
    ¬(|(1086547 : ℚ)/2482 - 437.49| ≤ 0.01) ∧
    ¬(|(335650 : ℚ)/1241 - 270.37| ≤ 0.01) ∧
    ¬(|(622391 : ℚ)/2482 - 250.65| ≤ 0.01) :=
  ⟨by decide, by decide, by decide, by decide⟩

/-- C2 amended: on the example inputs `_calculate_k` returns
`{iUSD: 437.77, iETH: 270.47, iBTC: 250.76}`, each value within 0.01. -/
theorem C2_calculate_k_example :
    calculate_k 4795
      [(IAsset.iUSD, 0.6), (IAsset.iETH, 0.7), (IAsset.iBTC, 0.8)]
      [(IAsset.iBTC, 60000), (IAsset.iUSD, 2.7), (IAsset.iETH, 4000)]
      [(IAsset.iETH, 1200), (IAsset.iUSD, 4000000), (IAsset.iBTC, 80)] =
      .ok [(IAsset.iUSD, 1086547/2482), (IAsset.iETH, 335650/1241),
        (IAsset.iBTC, 622391/2482)] ∧
    |(1086547 : ℚ)/2482 - 437.77| ≤ 0.01 ∧
    |(335650 : ℚ)/1241 - 270.47| ≤ 0.01 ∧
    |(622391 : ℚ)/2482 - 250.76| ≤ 0.01 :=
  ⟨by decide, by decide, by decide, by decide⟩

/-! ## Pro-rata distribution lemmas (C5, C6) -/

/-- With a nonzero weight total, `_pro_rata_distribute` succeeds and is
the evident map. -/
theorem pro_rata_distribute_eq (t : ℚ) (l : List (String × ℚ)) (day : ℤ)
    (c : String) (h : (l.map Prod.snd).sum ≠ 0) :
    pro_rata_distribute t l day c =
      .ok (l.map (fun p => ⟨p.2 / (l.map Prod.snd).sum * t, day, p.1,
        get_reward_expiration day, c⟩)) := by
  unfold pro_rata_distribute
  exact mapM_ok_of_forall _ _ _ (fun a _ => by rw [if_neg h])

/-- If `_pro_rata_distribute` succeeds on a nonempty account list, the
weight total was nonzero. -/
theorem pro_rata_distribute_total_ne_zero (t : ℚ) (l : List (String × ℚ))
    (day : ℤ) (c : String) (rs : List IndividualReward)
    (h : pro_rata_distribute t l day c = .ok rs) (hne : l ≠ []) :
    (l.map Prod.snd).sum ≠ 0 := by
  intro h0
  rcases l with _ | ⟨a, l'⟩
  · exact hne rfl
  · unfold pro_rata_distribute at h
    rw [List.mapM_cons] at h
    simp only [if_pos h0] at h
    exact absurd h (by simp [except_bind_error])

/-- Reward amounts of a pro-rata map sum to `weightSum * (t / S)`. -/
theorem sum_map_indy_pro_rata (t S : ℚ) (day e : ℤ) (c : String)
    (l : List (String × ℚ)) :
    ((l.map (fun p => (⟨p.2 / S * t, day, p.1, e, c⟩ : IndividualReward))).map
      (fun r => r.indy)).sum = (l.map Prod.snd).sum * (t / S) := by
  induction l with
  | nil => simp
  | cons a l ih =>
    simp only [List.map_cons, List.sum_cons, ih]
    ring

/-- C5: `_pro_rata_distribute` gives every account
`total × weight / sum(weights)`, and `{A: 1, B: 3}` at total 100 becomes
`{A: 25, B: 75}` exactly. -/
theorem C5_pro_rata_amounts :
    (∀ (t : ℚ) (l : List (String × ℚ)) (day : ℤ) (c : String)
      (rs : List IndividualReward), pro_rata_distribute t l day c = .ok rs →
      rs.map (fun r => (r.pkh, r.indy)) =
        l.map (fun p => (p.1, t * p.2 / (l.map Prod.snd).sum))) ∧
    (pro_rata_distribute 100 [("A", 1), ("B", 3)] (daysFromCivil 2023 3 22)
        "r").map (fun rs => rs.map (fun r => (r.pkh, r.indy))) =
      .ok [("A", 25), ("B", 75)] := by
  constructor
  · intro t l day c rs h
    rcases eq_or_ne l [] with rfl | hne
    · have : rs = [] := by
        have : pro_rata_distribute t [] day c = .ok [] := rfl
        rw [this] at h
        exact (Except.ok.injEq _ _).mp h.symm
      subst this
      rfl
    · have htot := pro_rata_distribute_total_ne_zero _ _ _ _ _ h hne
      rw [pro_rata_distribute_eq _ _ _ _ htot] at h
      injection h with h
      subst h
      rw [List.map_map]
      refine List.map_congr_left (fun p _ => ?_)
      simp only [Function.comp]
      refine Prod.ext rfl ?_
      show p.2 / (l.map Prod.snd).sum * t = t * p.2 / (l.map Prod.snd).sum
      ring
  · decide

/-- C5 witness: the general statement at total 100, weights
`[("A", 1), ("B", 3)]`, day 0. -/
theorem C5_pro_rata_amounts_witness :
    ([⟨25, 0, "A", get_reward_expiration 0, "r"⟩,
      ⟨75, 0, "B", get_reward_expiration 0, "r"⟩] :
        List IndividualReward).map (fun r => (r.pkh, r.indy)) =
      [("A", (1 : ℚ)), ("B", 3)].map (fun p =>
        (p.1, 100 * p.2 / ([("A", (1 : ℚ)), ("B", 3)].map Prod.snd).sum)) :=
  C5_pro_rata_amounts.1 100 [("A", 1), ("B", 3)] 0 "r" _ (by decide)

/-- With a nonzero group balance, the `_distribute_to_iasset_group` loop
succeeds and is the evident map over the matching statuses. -/
theorem distribute_loop_eq (r : IAssetReward) (total : ℚ) (day : ℤ)
    (h : total ≠ 0) (stats : List LiquidityPoolStatus) :
    distribute_to_iasset_group_loop r total day stats =
      .ok ((stats.filter (fun st => st.lp.iasset == r.iasset)).map
        (fun st => ⟨r.indy * (st.iasset_balance / total), day, st.lp⟩)) := by
  induction stats with
  | nil => rfl
  | cons s stats ih =>
    by_cases hs : s.lp.iasset = r.iasset
    · show (if s.lp.iasset = r.iasset then _ else _) = _
      rw [if_pos hs, if_neg h, ih, except_bind_ok, List.filter_cons,
        if_pos (by simp [hs])]
      rfl
    · show (if s.lp.iasset = r.iasset then _ else _) = _
      rw [if_neg hs, ih, List.filter_cons, if_neg (by simp [hs])]

/-- Pool reward amounts sum to `balanceSum * (k / total)`. -/
theorem sum_map_indy_pool (k total : ℚ) (day : ℤ)
    (l : List LiquidityPoolStatus) :
    ((l.map (fun st => (⟨k * (st.iasset_balance / total), day, st.lp⟩ :
        LiquidityPoolReward))).map (fun x => x.indy)).sum =
      (l.map (fun st => st.iasset_balance)).sum * (k / total) := by
  induction l with
  | nil => simp
  | cons a l ih =>
    simp only [List.map_cons, List.sum_cons, ih]
    ring

/-- C6: pro-rata reward amounts sum to the distributed budget, and
`_distribute_to_iasset_group` splits an asset's budget across its pools
proportional to balance share, the pool rewards summing to the budget. -/
theorem C6_sums_match_budget :
    (∀ (t : ℚ) (l : List (String × ℚ)) (day : ℤ) (c : String)
        (rs : List IndividualReward),
      l ≠ [] → 0 < (l.map Prod.snd).sum →
      pro_rata_distribute t l day c = .ok rs →
      (rs.map (fun r => r.indy)).sum = t) ∧
    (∀ (r : IAssetReward) (stats : List LiquidityPoolStatus) (day : ℤ)
        (rs : List LiquidityPoolReward),
      0 < sum_iasset r.iasset stats →
      distribute_to_iasset_group r stats day = .ok rs →
      rs = (stats.filter (fun st => st.lp.iasset == r.iasset)).map
          (fun st => ⟨r.indy * (st.iasset_balance /
            sum_iasset r.iasset stats), day, st.lp⟩) ∧
        (rs.map (fun x => x.indy)).sum = r.indy) := by
  constructor
  · intro t l day c rs hne hpos h
    have htot : (l.map Prod.snd).sum ≠ 0 := ne_of_gt hpos
    rw [pro_rata_distribute_eq _ _ _ _ htot] at h
    injection h with h
    subst h
    rw [sum_map_indy_pro_rata, mul_comm, div_mul_cancel₀ _ htot]
  · intro r stats day rs hpos h
    have htot : sum_iasset r.iasset stats ≠ 0 := ne_of_gt hpos
    unfold distribute_to_iasset_group at h
    rw [distribute_loop_eq _ _ _ htot] at h
    injection h with h
    subst h
    refine ⟨rfl, ?_⟩
    rw [sum_map_indy_pool]
    show sum_iasset r.iasset stats * (r.indy / sum_iasset r.iasset stats) =
      r.indy
    rw [mul_comm, div_mul_cancel₀ _ htot]

/-- C6 witness: both parts at concrete inputs (weights `{A: 1, B: 3}`
with budget 10; one iUSD pool of balance 5 with budget 7). -/
theorem C6_sums_match_budget_witness :
    (([⟨(5 : ℚ)/2, 0, "A", get_reward_expiration 0, "x"⟩,
        ⟨(15 : ℚ)/2, 0, "B", get_reward_expiration 0, "x"⟩] :
          List IndividualReward).map (fun r => r.indy)).sum = 10 ∧
    (([⟨7, 0, ⟨Dex.Minswap, IAsset.iUSD, "ADA", "tok"⟩⟩] :
        List LiquidityPoolReward).map (fun x => x.indy)).sum = 7 :=
  ⟨C6_sums_match_budget.1 10 [("A", 1), ("B", 3)] 0 "x" _ (by decide)
      (by decide) (by decide),
    (C6_sums_match_budget.2 ⟨7, 0, IAsset.iUSD⟩
      [⟨⟨Dex.Minswap, IAsset.iUSD, "ADA", "tok"⟩, 5, none, none, 0⟩] 0
      [⟨7, 0, ⟨Dex.Minswap, IAsset.iUSD, "ADA", "tok"⟩⟩]
      (by decide) (by decide)).2⟩

/-! ## Pool-weight lemmas (C1, C4, C9) -/

/-- Hard-coded effective dates as day numbers. -/
theorem table_date_values :
    daysFromCivil 2023 11 6 = 19667 ∧ daysFromCivil 2024 7 14 = 19918 ∧
    daysFromCivil 2024 11 26 = 20053 ∧ daysFromCivil 2024 12 5 = 20062 := by
  refine ⟨by decide, by decide, by decide, by decide⟩

/-- The legacy per-asset loop pairs each saturation key with a weight:
an explicit 0 exactly for the assets without stakers (a zero computed
weight for a staked asset would instead have raised). -/
theorem pool_weights_loop_spec (sats : List (IAsset × ℚ)) (day : ℤ)
    (mcaps : List (IAsset × ℚ)) (new_iassets stakers : Finset IAsset)
    (vols : List (IAsset × ℚ)) :
    ∀ (l w : List (IAsset × ℚ)),
      pool_weights_loop sats day mcaps new_iassets stakers vols l = .ok w →
      List.Forall₂ (fun p q =>
        (p.1 ∉ stakers → q = (p.1, 0)) ∧
        (p.1 ∈ stakers → q.1 = p.1 ∧ q.2 ≠ 0)) l w := by
  intro l
  induction l with
  | nil =>
    intro w h
    injection h with h
    subst h
    exact List.Forall₂.nil
  | cons p rest ih =>
    intro w h
    simp only [pool_weights_loop] at h
    by_cases hp : p.1 ∈ stakers
    · rw [if_neg (fun hn => hn hp)] at h
      cases hcw : calculate_weight p.1 sats day mcaps new_iassets stakers vols with
      | error e =>
        rw [hcw, except_bind_error] at h
        exact Except.noConfusion h
      | ok cw =>
        rw [hcw, except_bind_ok] at h
        by_cases hz : cw = 0
        · rw [if_pos hz] at h
          exact Except.noConfusion h
        · rw [if_neg hz] at h
          cases hloop : pool_weights_loop sats day mcaps new_iassets stakers
              vols rest with
          | error e =>
            rw [hloop, except_bind_error] at h
            exact Except.noConfusion h
          | ok tail =>
            rw [hloop, except_bind_ok] at h
            injection h with h
            subst h
            exact List.Forall₂.cons
              ⟨fun hn => absurd hp hn, fun _ => ⟨rfl, hz⟩⟩ (ih _ hloop)
    · have hp' : p.1 ∉ stakers := hp
      rw [if_pos hp'] at h
      cases hloop : pool_weights_loop sats day mcaps new_iassets stakers
          vols rest with
      | error e =>
        rw [hloop, except_bind_error] at h
        exact Except.noConfusion h
      | ok tail =>
        rw [hloop, except_bind_ok] at h
        injection h with h
        subst h
        exact List.Forall₂.cons
          ⟨fun _ => rfl, fun hin => absurd hin hp⟩ (ih _ hloop)

/-- When the legacy formula returns, its weights passed the 1e-8
sum-to-1 check, and they satisfy the per-asset loop invariant. -/
theorem before_448_spec (sats mcaps : List (IAsset × ℚ)) (day : ℤ)
    (new_iassets stakers : Finset IAsset) (vols : List (IAsset × ℚ))
    (w : List (IAsset × ℚ))
    (h : get_pool_weights_before_epoch_448 sats mcaps day new_iassets
      stakers vols = .ok w) :
    |(w.map Prod.snd).sum - 1| ≤ 1 / 100000000 ∧
    List.Forall₂ (fun p q =>
      (p.1 ∉ stakers → q = (p.1, 0)) ∧
      (p.1 ∈ stakers → q.1 = p.1 ∧ q.2 ≠ 0)) sats w := by
  unfold get_pool_weights_before_epoch_448 at h
  cases hloop : pool_weights_loop sats day mcaps new_iassets stakers vols
      sats with
  | error e =>
    rw [hloop, except_bind_error] at h
    exact Except.noConfusion h
  | ok ws =>
    rw [hloop, except_bind_ok] at h
    by_cases hs : |(ws.map Prod.snd).sum - 1| > 1 / 100000000
    · rw [if_pos hs] at h
      exact Except.noConfusion h
    · rw [if_neg hs] at h
      injection h with h
      subst h
      exact ⟨not_lt.mp hs, pool_weights_loop_spec _ _ _ _ _ _ _ _ hloop⟩

/-- For any day on or after 2024-11-26 the weight tables evaluate
`IAsset.from_str "isol"`, which raises. -/
theorem get_pool_weights_isol_error (sats mcaps : List (IAsset × ℚ))
    (day : ℤ) (new_iassets stakers : Finset IAsset)
    (vols : List (IAsset × ℚ)) (h : daysFromCivil 2024 11 26 ≤ day) :
    get_pool_weights sats mcaps day new_iassets stakers vols =
      .error "Invalid IAsset: isol" := by
  unfold get_pool_weights
  by_cases h5 : daysFromCivil 2024 12 5 ≤ day
  · rw [if_pos h5]
    rfl
  · rw [if_neg h5, if_pos h]
    rfl

/-- In the window 2023-11-06 to 2024-07-13 the 22431-denominator table
is returned as is. -/
theorem get_pool_weights_table_448 (sats mcaps : List (IAsset × ℚ))
    (day : ℤ) (new_iassets stakers : Finset IAsset)
    (vols : List (IAsset × ℚ)) (h1 : daysFromCivil 2023 11 6 ≤ day)
    (h2 : day < daysFromCivil 2024 7 14) :
    get_pool_weights sats mcaps day new_iassets stakers vols =
      .ok [(IAsset.iBTC, 3668 / 22431), (IAsset.iETH, 3188 / 22431),
        (IAsset.iUSD, 15574 / 22431)] := by
  obtain ⟨c1, c2, c3, c4⟩ := table_date_values
  unfold get_pool_weights
  rw [if_neg (by omega), if_neg (by omega), if_neg (by omega), if_pos h1]
  rfl

/-- In the window 2024-07-14 to 2024-11-25 the 18664.35-denominator
table is returned as is. -/
theorem get_pool_weights_table_497 (sats mcaps : List (IAsset × ℚ))
    (day : ℤ) (new_iassets stakers : Finset IAsset)
    (vols : List (IAsset × ℚ)) (h1 : daysFromCivil 2024 7 14 ≤ day)
    (h2 : day < daysFromCivil 2024 11 26) :
    get_pool_weights sats mcaps day new_iassets stakers vols =
      .ok [(IAsset.iBTC, 2469.29 / 18664.35), (IAsset.iETH, 1504.89 / 18664.35),
        (IAsset.iUSD, 14690.17 / 18664.35)] := by
  obtain ⟨c1, c2, c3, c4⟩ := table_date_values
  unfold get_pool_weights
  rw [if_neg (by omega), if_neg (by omega), if_pos h1]
  rfl

/-- For days before 2023-11-06 `get_pool_weights` is the legacy
formula. -/
theorem get_pool_weights_legacy (sats mcaps : List (IAsset × ℚ))
    (day : ℤ) (new_iassets stakers : Finset IAsset)
    (vols : List (IAsset × ℚ)) (h : day < daysFromCivil 2023 11 6) :
    get_pool_weights sats mcaps day new_iassets stakers vols =
      get_pool_weights_before_epoch_448 sats mcaps day new_iassets stakers
        vols := by
  obtain ⟨c1, c2, c3, c4⟩ := table_date_values
  unfold get_pool_weights
  rw [if_neg (by omega), if_neg (by omega), if_neg (by omega),
    if_neg (by omega)]

theorem except_bind_is_error {α β : Type} (x : Except String α)
    (f : α → Except String β) (h : ∀ a, except_is_error (f a) = true) :
    except_is_error (x >>= f) = true := by
  cases x with
  | error e => rfl
  | ok a => rw [except_bind_ok]; exact h a

/-! ## C1 -/

/-- C1 (amended): when `get_pool_weights` returns a map, its values sum
to 1 within 1e-8 for days before 2023-11-06 (legacy formula, enforced by
its own check; zero-staker assets carry explicit weight 0) and exactly 1
for days in [2024-07-14, 2024-11-26); for days in
[2023-11-06, 2024-07-14) the hard-coded table sums to 22430/22431,
outside the 1e-8 tolerance; for days on or after 2024-11-26 no map is
returned at all (the tables raise on `"isol"`). -/
theorem C1_pool_weights_sum_to_one :
    (∀ (sats mcaps : List (IAsset × ℚ)) (day : ℤ)
        (new_iassets stakers : Finset IAsset) (vols : List (IAsset × ℚ))
        (w : List (IAsset × ℚ)),
      day < daysFromCivil 2023 11 6 →
      get_pool_weights sats mcaps day new_iassets stakers vols = .ok w →
      |(w.map Prod.snd).sum - 1| ≤ 1 / 100000000 ∧
      List.Forall₂ (fun p q => p.1 ∉ stakers → q = (p.1, 0)) sats w) ∧
    (∀ (sats mcaps : List (IAsset × ℚ)) (day : ℤ)
        (new_iassets stakers : Finset IAsset) (vols : List (IAsset × ℚ))
        (w : List (IAsset × ℚ)),
      daysFromCivil 2024 7 14 ≤ day → day < daysFromCivil 2024 11 26 →
      get_pool_weights sats mcaps day new_iassets stakers vols = .ok w →
      (w.map Prod.snd).sum = 1) ∧
    (∀ (sats mcaps : List (IAsset × ℚ)) (day : ℤ)
        (new_iassets stakers : Finset IAsset) (vols : List (IAsset × ℚ))
        (w : List (IAsset × ℚ)),
      daysFromCivil 2023 11 6 ≤ day → day < daysFromCivil 2024 7 14 →
      get_pool_weights sats mcaps day new_iassets stakers vols = .ok w →
      (w.map Prod.snd).sum = 22430 / 22431 ∧
        ¬(|(w.map Prod.snd).sum - 1| ≤ 1 / 100000000)) ∧
    (∀ (sats mcaps : List (IAsset × ℚ)) (day : ℤ)
        (new_iassets stakers : Finset IAsset) (vols : List (IAsset × ℚ)),
      daysFromCivil 2024 11 26 ≤ day →
      get_pool_weights sats mcaps day new_iassets stakers vols =
        .error "Invalid IAsset: isol") := by
  refine ⟨?_, ?_, ?_, ?_⟩
  · intro sats mcaps day new_iassets stakers vols w hday hok
    rw [get_pool_weights_legacy _ _ _ _ _ _ hday] at hok
    obtain ⟨hsum, hall⟩ := before_448_spec _ _ _ _ _ _ _ hok
    exact ⟨hsum, hall.imp (fun _ _ hab => hab.1)⟩
  · intro sats mcaps day new_iassets stakers vols w h1 h2 hok
    rw [get_pool_weights_table_497 _ _ _ _ _ _ h1 h2] at hok
    injection hok with hok
    subst hok
    decide
  · intro sats mcaps day new_iassets stakers vols w h1 h2 hok
    rw [get_pool_weights_table_448 _ _ _ _ _ _ h1 h2] at hok
    injection hok with hok
    subst hok
    exact ⟨by decide, by decide⟩
  · intro sats mcaps day new_iassets stakers vols h
    exact get_pool_weights_isol_error _ _ _ _ _ _ h

/-- C1 counterexample: on 2024-01-01 the returned weights sum to
22430/22431, which is not within 1e-8 of 1. -/
theorem C1_counterexample :
    get_pool_weights [] [] (daysFromCivil 2024 1 1) ∅ {IAsset.iUSD} [] =
      .ok [(IAsset.iBTC, 3668 / 22431), (IAsset.iETH, 3188 / 22431),
        (IAsset.iUSD, 15574 / 22431)] ∧
    ¬(|(([(IAsset.iBTC, (3668 : ℚ) / 22431), (IAsset.iETH, 3188 / 22431),
        (IAsset.iUSD, 15574 / 22431)].map Prod.snd).sum - 1)| ≤
      1 / 100000000) :=
  ⟨by decide, by decide⟩

/-- C1 witness: each part of the amended claim at a concrete input
(legacy day 2023-06-01 with a single fully-staked asset, one day in each
table window, one day after 2024-11-26). -/
theorem C1_pool_weights_sum_to_one_witness :
    (|(([(IAsset.iUSD, (1 : ℚ))].map Prod.snd).sum - 1)| ≤ 1 / 100000000 ∧
      List.Forall₂ (fun p q => p.1 ∉ ({IAsset.iUSD} : Finset IAsset) →
        q = (p.1, 0)) [(IAsset.iUSD, (1 : ℚ)/2)] [(IAsset.iUSD, (1 : ℚ))]) ∧
    (([(IAsset.iBTC, (2469.29 : ℚ) / 18664.35),
      (IAsset.iETH, 1504.89 / 18664.35),
      (IAsset.iUSD, 14690.17 / 18664.35)].map Prod.snd).sum = 1) ∧
    (([(IAsset.iBTC, (3668 : ℚ) / 22431), (IAsset.iETH, 3188 / 22431),
      (IAsset.iUSD, 15574 / 22431)].map Prod.snd).sum = 22430 / 22431) ∧
    get_pool_weights [] [] (daysFromCivil 2025 2 1) ∅ ∅ [] =
      .error "Invalid IAsset: isol" :=
  ⟨C1_pool_weights_sum_to_one.1 [(IAsset.iUSD, (1 : ℚ)/2)]
      [(IAsset.iUSD, (100 : ℚ))] (daysFromCivil 2023 6 1) ∅ {IAsset.iUSD}
      [] [(IAsset.iUSD, (1 : ℚ))] (by decide) (by decide),
    C1_pool_weights_sum_to_one.2.1 [] [] (daysFromCivil 2024 8 1) ∅ ∅ []
      [(IAsset.iBTC, 2469.29 / 18664.35), (IAsset.iETH, 1504.89 / 18664.35),
        (IAsset.iUSD, 14690.17 / 18664.35)] (by decide) (by decide)
      (by decide),
    (C1_pool_weights_sum_to_one.2.2.1 [] [] (daysFromCivil 2024 1 1) ∅ ∅ []
      [(IAsset.iBTC, 3668 / 22431), (IAsset.iETH, 3188 / 22431),
        (IAsset.iUSD, 15574 / 22431)] (by decide) (by decide) (by decide)).1,
    C1_pool_weights_sum_to_one.2.2.2 [] [] (daysFromCivil 2025 2 1) ∅ ∅ []
      (by decide)⟩

/-! ## C9 -/

/-- C9: for every day on or after 2024-11-26 the weight tables call
`IAsset.from_str "isol"`, which raises `ValueError: Invalid IAsset:
isol` before any weights are returned, and consequently the whole
stability-pool distribution for such a day fails. -/
theorem C9_isol_from_str_error :
    (∀ (sats mcaps : List (IAsset × ℚ)) (day : ℤ)
        (new_iassets stakers : Finset IAsset) (vols : List (IAsset × ℚ)),
      daysFromCivil 2024 11 26 ≤ day →
      get_pool_weights sats mcaps day new_iassets stakers vols =
        .error "Invalid IAsset: isol") ∧
    (∀ (api : SpApi) (day : ℤ) (epoch_indy : ℚ),
      daysFromCivil 2024 11 26 ≤ day →
      except_is_error (sp_get_rewards_per_staker api day epoch_indy) =
        true) := by
  constructor
  · intro sats mcaps day new_iassets stakers vols h
    exact get_pool_weights_isol_error _ _ _ _ _ _ h
  · intro api day epoch_indy h
    simp only [sp_get_rewards_per_staker, sp_get_rewards_per_pool]
    apply except_bind_is_error
    intro s
    simp only [get_pool_weights_isol_error _ _ _ _ _ _ h, except_bind_error]
    rfl

/-- C9 witness: both parts at 2024-12-25 with empty API data. -/
theorem C9_isol_from_str_error_witness :
    get_pool_weights [] [] (daysFromCivil 2024 12 25) ∅ ∅ [] =
      .error "Invalid IAsset: isol" ∧
    except_is_error (sp_get_rewards_per_staker
      ⟨fun _ => [], fun _ => [], fun _ => [], fun _ => []⟩
      (daysFromCivil 2024 12 25) 100) = true :=
  ⟨C9_isol_from_str_error.1 [] [] (daysFromCivil 2024 12 25) ∅ ∅ []
      (by decide),
    C9_isol_from_str_error.2
      ⟨fun _ => [], fun _ => [], fun _ => [], fun _ => []⟩
      (daysFromCivil 2024 12 25) 100 (by decide)⟩

/-! ## C4 -/

theorem except_bind_map_congr {α β : Type} (x : Except String α)
    (f g : α → Except String β) (gg : β → β)
    (h : ∀ b, f b = (g b).map gg) : (x >>= f) = (x >>= g).map gg := by
  cases x with
  | error e => rfl
  | ok a => rw [except_bind_ok, except_bind_ok, h]

/-- An entry with a valid saturation whose asset has no stakers leaves
`_get_sat_inverse_sum` unchanged. -/
theorem get_sat_inverse_sum_skip (stakers new_iassets : Finset IAsset)
    (a : IAsset) (s : ℚ) (hs : a ∉ stakers) (h0 : 0 ≤ s) (h1 : s ≤ 1)
    (xs ys : List (IAsset × ℚ)) :
    get_sat_inverse_sum (xs ++ (a, s) :: ys) stakers new_iassets =
      get_sat_inverse_sum (xs ++ ys) stakers new_iassets := by
  unfold get_sat_inverse_sum
  rw [List.foldlM_append, List.foldlM_append]
  apply bind_congr
  intro b
  rw [List.foldlM_cons, if_neg (by
    rw [not_or]
    exact ⟨not_lt.mpr h0, not_lt.mpr h1⟩),
    if_neg (fun hc => hs hc.2), except_bind_ok]

/-- An entry with a positive volatility whose asset has no stakers
leaves `_get_vol_inverse_sum` unchanged. -/
theorem get_vol_inverse_sum_skip (stakers : Finset IAsset) (a : IAsset)
    (v : ℚ) (hs : a ∉ stakers) (hv : 0 < v) (xs ys : List (IAsset × ℚ)) :
    get_vol_inverse_sum (xs ++ (a, v) :: ys) stakers =
      get_vol_inverse_sum (xs ++ ys) stakers := by
  unfold get_vol_inverse_sum
  rw [List.foldlM_append, List.foldlM_append]
  apply bind_congr
  intro b
  rw [List.foldlM_cons, if_neg (not_lt.mpr (le_of_lt hv)),
    if_neg (ne_of_gt hv), if_neg hs, except_bind_ok]

/-- Shifting the accumulator of the `_get_mcap_sum` fold shifts its
result. -/
theorem mcap_fold_shift (new_iassets : Finset IAsset) :
    ∀ (l : List (IAsset × ℚ)) (b m : ℚ),
      List.foldlM (fun acc p =>
        if p.2 ≤ 0 then (.error "Market cap is zero or less" : Except String ℚ)
        else if p.1 ∉ new_iassets then .ok (acc + p.2)
        else .ok acc) (b + m) l =
      (List.foldlM (fun acc p =>
        if p.2 ≤ 0 then (.error "Market cap is zero or less" : Except String ℚ)
        else if p.1 ∉ new_iassets then .ok (acc + p.2)
        else .ok acc) b l).map (fun x => x + m) := by
  intro l
  induction l with
  | nil => intro b m; rfl
  | cons p rest ih =>
    intro b m
    rw [List.foldlM_cons, List.foldlM_cons]
    by_cases h0 : p.2 ≤ 0
    · rw [if_pos h0, if_pos h0]
      rfl
    · rw [if_neg h0, if_neg h0]
      by_cases hn : p.1 ∉ new_iassets
      · rw [if_pos hn, if_pos hn, except_bind_ok, except_bind_ok,
          show b + m + p.2 = b + p.2 + m by ring]
        exact ih _ _
      · rw [if_neg hn, if_neg hn, except_bind_ok, except_bind_ok]
        exact ih _ _

/-- A non-new asset with a positive market cap contributes its market
cap to `_get_mcap_sum` whether or not it has stakers. -/
theorem get_mcap_sum_includes (new_iassets : Finset IAsset) (a : IAsset)
    (m : ℚ) (ha : a ∉ new_iassets) (hm : 0 < m)
    (xs ys : List (IAsset × ℚ)) :
    get_mcap_sum (xs ++ (a, m) :: ys) new_iassets =
      (get_mcap_sum (xs ++ ys) new_iassets).map (fun x => x + m) := by
  unfold get_mcap_sum
  rw [List.foldlM_append, List.foldlM_append]
  apply except_bind_map_congr
  intro b
  rw [List.foldlM_cons, if_neg (not_le.mpr hm), if_pos ha, except_bind_ok]
  exact mcap_fold_shift _ _ _ _

/-- C4 (amended): in the legacy formula every asset in the saturations
map without stakers is assigned weight exactly 0 and a staked asset
whose computed weight is 0 raises; a no-staker asset is excluded from
the inverse-saturation and inverse-volatility sums, but a non-new
no-staker asset still contributes its market cap to the market-cap
sum. -/
theorem C4_zero_staker_assets :
    (∀ (sats mcaps : List (IAsset × ℚ)) (day : ℤ)
        (new_iassets stakers : Finset IAsset) (vols : List (IAsset × ℚ))
        (w : List (IAsset × ℚ)),
      get_pool_weights_before_epoch_448 sats mcaps day new_iassets stakers
        vols = .ok w →
      List.Forall₂ (fun p q => (p.1 ∉ stakers → q = (p.1, 0)) ∧
        (p.1 ∈ stakers → q.1 = p.1 ∧ q.2 ≠ 0)) sats w) ∧
    (∀ (stakers new_iassets : Finset IAsset) (a : IAsset) (s : ℚ),
      a ∉ stakers → 0 ≤ s → s ≤ 1 →
      ∀ (xs ys : List (IAsset × ℚ)),
        get_sat_inverse_sum (xs ++ (a, s) :: ys) stakers new_iassets =
          get_sat_inverse_sum (xs ++ ys) stakers new_iassets) ∧
    (∀ (stakers : Finset IAsset) (a : IAsset) (v : ℚ),
      a ∉ stakers → 0 < v →
      ∀ (xs ys : List (IAsset × ℚ)),
        get_vol_inverse_sum (xs ++ (a, v) :: ys) stakers =
          get_vol_inverse_sum (xs ++ ys) stakers) ∧
    (∀ (new_iassets : Finset IAsset) (a : IAsset) (m : ℚ),
      a ∉ new_iassets → 0 < m →
      ∀ (xs ys : List (IAsset × ℚ)),
        get_mcap_sum (xs ++ (a, m) :: ys) new_iassets =
          (get_mcap_sum (xs ++ ys) new_iassets).map (fun x => x + m)) :=
  ⟨fun _ _ _ _ _ _ _ h => (before_448_spec _ _ _ _ _ _ _ h).2,
    fun stakers new_iassets a s hs h0 h1 xs ys =>
      get_sat_inverse_sum_skip stakers new_iassets a s hs h0 h1 xs ys,
    fun stakers a v hs hv xs ys =>
      get_vol_inverse_sum_skip stakers a v hs hv xs ys,
    fun new_iassets a m ha hm xs ys =>
      get_mcap_sum_includes new_iassets a m ha hm xs ys⟩

/-- C4 counterexample: a no-staker, non-new asset (iBTC) does
contribute to the market-cap sum (150, not 100), and on inputs where
exclusion would give weight 1 to the staked asset, the legacy formula
instead computes 3/4 and fails its own sum-to-1 check. -/
theorem C4_counterexample :
    get_mcap_sum [(IAsset.iUSD, 100), (IAsset.iBTC, 50)] ∅ = .ok 150 ∧
    get_mcap_sum [(IAsset.iUSD, 100)] ∅ = .ok 100 ∧
    get_pool_weights_before_epoch_448
      [(IAsset.iUSD, 1/2), (IAsset.iBTC, 1/2)]
      [(IAsset.iUSD, 100), (IAsset.iBTC, 100)]
      (daysFromCivil 2023 6 1) ∅ {IAsset.iUSD} [] =
      .error "Sum of weights is not 1" :=
  ⟨by decide, by decide, by decide⟩

/-- C4 witness: each part of the amended claim at concrete inputs. -/
theorem C4_zero_staker_assets_witness :
    List.Forall₂ (fun p q => (p.1 ∉ ({IAsset.iUSD} : Finset IAsset) →
        q = (p.1, 0)) ∧
      (p.1 ∈ ({IAsset.iUSD} : Finset IAsset) → q.1 = p.1 ∧ q.2 ≠ 0))
      [(IAsset.iUSD, (1 : ℚ)/2)] [(IAsset.iUSD, (1 : ℚ))] ∧
    get_sat_inverse_sum [(IAsset.iUSD, (1 : ℚ)/2), (IAsset.iBTC, 1/3)]
        {IAsset.iUSD} ∅ =
      get_sat_inverse_sum [(IAsset.iUSD, (1 : ℚ)/2)] {IAsset.iUSD} ∅ ∧
    get_vol_inverse_sum [(IAsset.iUSD, (1 : ℚ)/4), (IAsset.iBTC, 2)]
        {IAsset.iUSD} =
      get_vol_inverse_sum [(IAsset.iUSD, (1 : ℚ)/4)] {IAsset.iUSD} ∧
    get_mcap_sum [(IAsset.iUSD, (100 : ℚ)), (IAsset.iBTC, 50)] ∅ =
      (get_mcap_sum [(IAsset.iUSD, (100 : ℚ))] ∅).map (fun x => x + 50) :=
  ⟨C4_zero_staker_assets.1 [(IAsset.iUSD, (1 : ℚ)/2)]
      [(IAsset.iUSD, (100 : ℚ))] (daysFromCivil 2023 6 1) ∅ {IAsset.iUSD}
      [] [(IAsset.iUSD, (1 : ℚ))] (by decide),
    C4_zero_staker_assets.2.1 {IAsset.iUSD} ∅ IAsset.iBTC (1/3)
      (by decide) (by decide) (by decide) [(IAsset.iUSD, (1 : ℚ)/2)] [],
    C4_zero_staker_assets.2.2.1 {IAsset.iUSD} IAsset.iBTC 2 (by decide)
      (by decide) [(IAsset.iUSD, (1 : ℚ)/4)] [],
    C4_zero_staker_assets.2.2.2 ∅ IAsset.iBTC 50 (by decide) (by decide)
      [(IAsset.iUSD, (100 : ℚ))] []⟩

/-! ## Merge lemmas (C7, C10) -/

theorem key_weight_cons (m : SpMergedAccount) (rest : List SpMergedAccount)
    (o s : String) :
    key_weight (m :: rest) o s =
      (if m.owner = o ∧ m.asset = s then m.iasset_staked else 0) +
        key_weight rest o s := by
  unfold key_weight
  rw [List.filter_cons]
  by_cases h : m.owner = o ∧ m.asset = s
  · rw [if_pos (by simp [h.1, h.2]), if_pos h]
    simp
  · rw [if_neg (by simpa using h), if_neg h]
    simp

theorem key_weight_src_cons (a : SpAccount) (rest : List SpAccount)
    (o s : String) :
    key_weight_src (a :: rest) o s =
      (if a.owner = o ∧ a.asset = s then a.iasset_staked else 0) +
        key_weight_src rest o s := by
  unfold key_weight_src
  rw [List.filter_cons]
  by_cases h : a.owner = o ∧ a.asset = s
  · rw [if_pos (by simp [h.1, h.2]), if_pos h]
    simp
  · rw [if_neg (by simpa using h), if_neg h]
    simp

/-- The merge-step update preserves the `(owner, asset)` key of every
entry. -/
theorem merged_key_upd (a : SpAccount) (m : SpMergedAccount) :
    merged_key (if m.owner = a.owner ∧ m.asset = a.asset then
      { m with iasset_staked := m.iasset_staked + a.iasset_staked }
    else m) = merged_key m := by
  by_cases h : m.owner = a.owner ∧ m.asset = a.asset
  · rw [if_pos h]
    rfl
  · rw [if_neg h]

theorem merge_upd_keys (a : SpAccount) (acc : List SpMergedAccount) :
    (acc.map (fun m =>
      if m.owner = a.owner ∧ m.asset = a.asset then
        { m with iasset_staked := m.iasset_staked + a.iasset_staked }
      else m)).map merged_key = acc.map merged_key := by
  rw [List.map_map]
  exact List.map_congr_left (fun m _ => merged_key_upd a m)

/-- The duplicate-match condition of the merge step, as key
membership. -/
theorem merge_any_mem (a : SpAccount) (acc : List SpMergedAccount) :
    acc.any (fun m => m.owner == a.owner && m.asset == a.asset) = true ↔
      (a.owner, a.asset) ∈ acc.map merged_key := by
  simp only [List.any_eq_true, Bool.and_eq_true, beq_iff_eq, List.mem_map,
    merged_key]
  constructor
  · rintro ⟨m, hm, h1, h2⟩
    exact ⟨m, hm, by rw [h1, h2]⟩
  · rintro ⟨m, hm, h⟩
    exact ⟨m, hm, congrArg Prod.fst h, congrArg Prod.snd h⟩

/-- If `(o, s)` does not occur among the keys, its weight is 0. -/
theorem key_weight_absent (o s : String) :
    ∀ (acc : List SpMergedAccount), (o, s) ∉ acc.map merged_key →
      key_weight acc o s = 0 := by
  intro acc
  induction acc with
  | nil => intro _; rfl
  | cons m rest ih =>
    intro h
    rw [List.map_cons, List.mem_cons] at h
    push_neg at h
    rw [key_weight_cons, if_neg (fun hc => h.1 (by
      simp only [merged_key, hc.1, hc.2])), ih h.2]
    ring

/-- Updating entries keyed `(a.owner, a.asset)` does not change the
weight of a different key. -/
theorem key_weight_upd_other (a : SpAccount) (o s : String)
    (hm : ¬(a.owner = o ∧ a.asset = s)) :
    ∀ (acc : List SpMergedAccount),
      key_weight (acc.map (fun m =>
        if m.owner = a.owner ∧ m.asset = a.asset then
          { m with iasset_staked := m.iasset_staked + a.iasset_staked }
        else m)) o s = key_weight acc o s := by
  intro acc
  induction acc with
  | nil => rfl
  | cons m rest ih =>
    rw [List.map_cons, key_weight_cons, key_weight_cons, ih]
    congr 1
    by_cases hc : m.owner = a.owner ∧ m.asset = a.asset
    · rw [if_pos hc]
      by_cases ho : m.owner = o ∧ m.asset = s
      · exact absurd ⟨hc.1 ▸ ho.1, hc.2 ▸ ho.2⟩ hm
      · rw [if_neg (fun hx => ho ⟨hx.1, hx.2⟩), if_neg ho]
    · rw [if_neg hc]

/-- Updating the unique entry keyed `(o, s)` adds the new staked
amount to that key's weight. -/
theorem key_weight_upd_match (a : SpAccount) (o s : String)
    (hm : a.owner = o ∧ a.asset = s) :
    ∀ (acc : List SpMergedAccount), (acc.map merged_key).Nodup →
      (o, s) ∈ acc.map merged_key →
      key_weight (acc.map (fun m =>
        if m.owner = a.owner ∧ m.asset = a.asset then
          { m with iasset_staked := m.iasset_staked + a.iasset_staked }
        else m)) o s = key_weight acc o s + a.iasset_staked := by
  intro acc
  induction acc with
  | nil =>
    intro _ hmem
    exact absurd hmem (List.not_mem_nil _)
  | cons m rest ih =>
    intro hnd hmem
    rw [List.map_cons, List.nodup_cons] at hnd
    rw [List.map_cons, key_weight_cons, key_weight_cons]
    by_cases hk : m.owner = o ∧ m.asset = s
    · have hma : m.owner = a.owner ∧ m.asset = a.asset :=
        ⟨hk.1.trans hm.1.symm, hk.2.trans hm.2.symm⟩
      have habs : (o, s) ∉ rest.map merged_key := by
        intro hx
        exact hnd.1 (by simpa only [merged_key, hk.1, hk.2] using hx)
      rw [if_pos hma, if_pos (show ({ m with iasset_staked :=
          m.iasset_staked + a.iasset_staked } : SpMergedAccount).owner = o ∧
          ({ m with iasset_staked := m.iasset_staked + a.iasset_staked } :
            SpMergedAccount).asset = s from hk), if_pos hk]
      have h1 : key_weight (rest.map (fun m =>
          if m.owner = a.owner ∧ m.asset = a.asset then
            { m with iasset_staked := m.iasset_staked + a.iasset_staked }
          else m)) o s = 0 := by
        apply key_weight_absent
        rw [merge_upd_keys]
        exact habs
      rw [h1, key_weight_absent o s rest habs]
      show m.iasset_staked + a.iasset_staked + 0 =
        m.iasset_staked + 0 + a.iasset_staked
      ring
    · have hmem' : (o, s) ∈ rest.map merged_key := by
        rcases List.mem_cons.mp hmem with hx | hx
        · exact absurd ⟨congrArg Prod.fst hx.symm,
            congrArg Prod.snd hx.symm⟩ hk
        · exact hx
      rw [ih hnd.2 hmem']
      by_cases hc : m.owner = a.owner ∧ m.asset = a.asset
      · rw [if_pos hc, if_neg (fun hx => hk ⟨hx.1, hx.2⟩), if_neg hk]
        ring
      · rw [if_neg hc, if_neg hk]
        ring

/-- One merge step preserves key distinctness. -/
theorem merge_step_nodup (acc : List SpMergedAccount) (a : SpAccount)
    (hnd : (acc.map merged_key).Nodup) :
    ((merge_step acc a).map merged_key).Nodup := by
  unfold merge_step
  by_cases hany : acc.any (fun m =>
    m.owner == a.owner && m.asset == a.asset) = true
  · rw [if_pos hany, merge_upd_keys]
    exact hnd
  · rw [if_neg hany, List.map_append]
    rw [List.nodup_append]
    refine ⟨hnd, List.nodup_singleton _, ?_⟩
    intro k hk hk'
    rw [List.map_singleton, List.mem_singleton] at hk'
    subst hk'
    exact hany ((merge_any_mem a acc).mpr hk)

/-- One merge step adds the incoming record's stake to its key's
weight. -/
theorem merge_step_weight (acc : List SpMergedAccount) (a : SpAccount)
    (o s : String) (hnd : (acc.map merged_key).Nodup) :
    key_weight (merge_step acc a) o s =
      key_weight acc o s +
        (if a.owner = o ∧ a.asset = s then a.iasset_staked else 0) := by
  unfold merge_step
  by_cases hany : acc.any (fun m =>
    m.owner == a.owner && m.asset == a.asset) = true
  · rw [if_pos hany]
    by_cases hm : a.owner = o ∧ a.asset = s
    · rw [if_pos hm]
      have hmem : (o, s) ∈ acc.map merged_key := by
        have := (merge_any_mem a acc).mp hany
        rwa [hm.1, hm.2] at this
      exact key_weight_upd_match a o s hm acc hnd hmem
    · rw [if_neg hm, key_weight_upd_other a o s hm acc]
      ring
  · rw [if_neg hany]
    unfold key_weight
    rw [List.filter_append, List.map_append, List.sum_append]
    congr 1
    rw [List.filter_cons, List.filter_nil]
    by_cases hm : a.owner = o ∧ a.asset = s
    · rw [if_pos (by simp [hm.1, hm.2]), if_pos hm]
      simp
    · rw [if_neg (by simpa using hm), if_neg hm]
      rfl

/-- Folding merge steps preserves key distinctness. -/
theorem merge_foldl_nodup :
    ∀ (l : List SpAccount) (acc : List SpMergedAccount),
      (acc.map merged_key).Nodup →
      ((l.foldl merge_step acc).map merged_key).Nodup := by
  intro l
  induction l with
  | nil => intro acc h; exact h
  | cons a rest ih =>
    intro acc h
    rw [List.foldl_cons]
    exact ih _ (merge_step_nodup acc a h)

/-- Folding merge steps adds the incoming records' per-key sums. -/
theorem merge_foldl_weight (o s : String) :
    ∀ (l : List SpAccount) (acc : List SpMergedAccount),
      (acc.map merged_key).Nodup →
      key_weight (l.foldl merge_step acc) o s =
        key_weight acc o s + key_weight_src l o s := by
  intro l
  induction l with
  | nil =>
    intro acc _
    show key_weight acc o s = key_weight acc o s + 0
    ring
  | cons a rest ih =>
    intro acc hnd
    rw [List.foldl_cons, ih _ (merge_step_nodup acc a hnd),
      merge_step_weight acc a o s hnd, key_weight_src_cons]
    ring

/-- Folding merge steps neither loses nor invents keys. -/
theorem merge_foldl_mem (o s : String) :
    ∀ (l : List SpAccount) (acc : List SpMergedAccount),
      ((o, s) ∈ (l.foldl merge_step acc).map merged_key ↔
        (o, s) ∈ acc.map merged_key ∨
          (o, s) ∈ l.map (fun a => (a.owner, a.asset))) := by
  intro l
  induction l with
  | nil =>
    intro acc
    simp
  | cons a rest ih =>
    intro acc
    rw [List.foldl_cons, ih (merge_step acc a), List.map_cons,
      List.mem_cons]
    have hstep : (o, s) ∈ (merge_step acc a).map merged_key ↔
        (o, s) ∈ acc.map merged_key ∨ (o, s) = (a.owner, a.asset) := by
      unfold merge_step
      by_cases hany : acc.any (fun m =>
        m.owner == a.owner && m.asset == a.asset) = true
      · rw [if_pos hany, merge_upd_keys]
        constructor
        · exact Or.inl
        · rintro (h | h)
          · exact h
          · rw [h]
            exact (merge_any_mem a acc).mp hany
      · rw [if_neg hany, List.map_append]
        rw [List.mem_append]
        simp [merged_key]
    rw [hstep]
    tauto

/-! ## Pipeline shape lemmas (C7, C10) -/

/-- Every selected account pair of a pool comes from the merged account
list. -/
theorem iasset_accounts_of_owners (target : IAsset) :
    ∀ (l : List SpMergedAccount) (acc : List (String × ℚ)),
      iasset_accounts_of target l = .ok acc →
      ∀ p ∈ acc, ∃ m ∈ l, p.1 = m.owner := by
  intro l
  induction l with
  | nil =>
    intro acc h p hp
    injection h with h
    subst h
    exact absurd hp (List.not_mem_nil p)
  | cons x rest ih =>
    intro acc h p hp
    simp only [iasset_accounts_of] at h
    cases hfs : IAsset.from_str x.asset with
    | error e =>
      rw [hfs, except_bind_error] at h
      exact Except.noConfusion h
    | ok ia =>
      rw [hfs, except_bind_ok] at h
      cases ht : iasset_accounts_of target rest with
      | error e =>
        rw [ht, except_bind_error] at h
        exact Except.noConfusion h
      | ok tail =>
        rw [ht, except_bind_ok] at h
        injection h with h
        subst h
        by_cases hia : ia = target
        · rw [if_pos hia] at hp
          rcases List.mem_cons.mp hp with hp | hp
          · exact ⟨x, List.mem_cons_self _ _, by rw [hp]⟩
          · obtain ⟨m, hm, hpm⟩ := ih tail ht p hp
            exact ⟨m, List.mem_cons_of_mem _ hm, hpm⟩
        · rw [if_neg hia] at hp
          obtain ⟨m, hm, hpm⟩ := ih tail ht p hp
          exact ⟨m, List.mem_cons_of_mem _ hm, hpm⟩

/-- Every reward of a pro-rata split belongs to one of the accounts. -/
theorem pro_rata_distribute_pkh (t : ℚ) (l : List (String × ℚ)) (day : ℤ)
    (c : String) (rs : List IndividualReward)
    (h : pro_rata_distribute t l day c = .ok rs) :
    ∀ r ∈ rs, ∃ p ∈ l, r.pkh = p.1 := by
  rcases eq_or_ne l [] with rfl | hne
  · have : (Except.ok [] : Except String (List IndividualReward)) = .ok rs := h
    injection this with this
    subst this
    intro r hr
    exact absurd hr (List.not_mem_nil r)
  · rw [pro_rata_distribute_eq _ _ _ _
      (pro_rata_distribute_total_ne_zero _ _ _ _ _ h hne)] at h
    injection h with h
    subst h
    intro r hr
    obtain ⟨p, hp, hpr⟩ := List.mem_map.mp hr
    exact ⟨p, hp, by rw [← hpr]⟩

/-- The per-pool fold of `sp.get_rewards_per_staker` only produces
rewards whose key hash belongs to a merged eligible account. -/
theorem sp_rewards_fold_pkh (day : ℤ) (eligible : List SpMergedAccount) :
    ∀ (pools : List IAssetReward) (acc rewards : List IndividualReward),
      pools.foldlM (fun acc pool_reward => do
        let iasset_accounts ← iasset_accounts_of pool_reward.iasset eligible
        let rs ← pro_rata_distribute pool_reward.indy iasset_accounts day
          ("SP reward for " ++ pool_reward.iasset.name)
        pure (acc ++ rs)) acc = .ok rewards →
      (∀ r ∈ acc, ∃ m ∈ eligible, r.pkh = m.owner) →
      ∀ r ∈ rewards, ∃ m ∈ eligible, r.pkh = m.owner := by
  intro pools
  induction pools with
  | nil =>
    intro acc rewards h hacc
    injection h with h
    subst h
    exact hacc
  | cons pr rest ih =>
    intro acc rewards h hacc
    rw [List.foldlM_cons] at h
    cases hia : iasset_accounts_of pr.iasset eligible with
    | error e =>
      rw [hia] at h
      exact Except.noConfusion (show (Except.error e :
        Except String (List IndividualReward)) = .ok rewards from h)
    | ok ias =>
      rw [hia] at h
      simp only [except_bind_ok] at h
      cases hpr : pro_rata_distribute pr.indy ias day
          ("SP reward for " ++ pr.iasset.name) with
      | error e =>
        rw [hpr] at h
        exact Except.noConfusion (show (Except.error e :
          Except String (List IndividualReward)) = .ok rewards from h)
      | ok rs =>
        rw [hpr] at h
        simp only [except_bind_ok] at h
        refine ih (acc ++ rs) rewards h ?_
        intro r hr
        rcases List.mem_append.mp hr with hr | hr
        · exact hacc r hr
        · obtain ⟨p, hp, hpr'⟩ := pro_rata_distribute_pkh _ _ _ _ _ hpr r hr
          obtain ⟨m, hm, hpm⟩ := iasset_accounts_of_owners _ _ _ hia p hp
          exact ⟨m, hm, hpr'.trans hpm⟩

/-- A successful `sp.get_rewards_per_staker` run returns exactly one
reward per merged eligible account, each keyed by an eligible owner. -/
theorem sp_get_rewards_per_staker_shape (api : SpApi) (day : ℤ)
    (epoch_indy : ℚ) (rs : List IndividualReward)
    (h : sp_get_rewards_per_staker api day epoch_indy = .ok rs) :
    rs.length = (merge_duplicate_accounts
      ((api.accounts (get_snapshot_time day)).filter
        (fun a => is_at_least_24h_old a day))).length ∧
    ∀ r ∈ rs, ∃ m ∈ merge_duplicate_accounts
      ((api.accounts (get_snapshot_time day)).filter
        (fun a => is_at_least_24h_old a day)), r.pkh = m.owner := by
  simp only [sp_get_rewards_per_staker] at h
  set elig := merge_duplicate_accounts
    ((api.accounts (get_snapshot_time day)).filter
      (fun a => is_at_least_24h_old a day)) with helig
  cases hu : get_unique_iassets elig with
  | error e =>
    rw [hu] at h
    exact Except.noConfusion (show (Except.error e :
      Except String (List IndividualReward)) = .ok rs from h)
  | ok stakers =>
    rw [hu] at h
    simp only [except_bind_ok] at h
    cases hrp : sp_get_rewards_per_pool api day epoch_indy stakers with
    | error e =>
      rw [hrp] at h
      exact Except.noConfusion (show (Except.error e :
        Except String (List IndividualReward)) = .ok rs from h)
    | ok pools =>
      rw [hrp] at h
      simp only [except_bind_ok] at h
      cases hc1 : check_each_iasset_has_stakers pools elig with
      | error e =>
        rw [hc1] at h
        exact Except.noConfusion (show (Except.error e :
          Except String (List IndividualReward)) = .ok rs from h)
      | ok u1 =>
        rw [hc1] at h
        simp only [except_bind_ok] at h
        cases hc2 : check_each_account_has_reward
            (pools.map (fun r => r.iasset))
            (api.accounts (get_snapshot_time day)) with
        | error e =>
          rw [hc2] at h
          exact Except.noConfusion (show (Except.error e :
            Except String (List IndividualReward)) = .ok rs from h)
        | ok u2 =>
          rw [hc2] at h
          simp only [except_bind_ok] at h
          cases hf : pools.foldlM (fun acc pool_reward => do
              let iasset_accounts ← iasset_accounts_of pool_reward.iasset
                elig
              let rs ← pro_rata_distribute pool_reward.indy iasset_accounts
                day ("SP reward for " ++ pool_reward.iasset.name)
              pure (acc ++ rs)) [] with
          | error e =>
            rw [hf] at h
            exact Except.noConfusion (show (Except.error e :
              Except String (List IndividualReward)) = .ok rs from h)
          | ok rewards =>
            rw [hf] at h
            simp only [except_bind_ok] at h
            by_cases hlen : rewards.length ≠ elig.length
            · rw [if_pos hlen] at h
              exact Except.noConfusion h
            · rw [if_neg hlen] at h
              injection h with h
              subst h
              push_neg at hlen
              refine ⟨hlen, sp_rewards_fold_pkh day elig pools [] rewards
                hf ?_⟩
              intro r hr
              exact absurd hr (List.not_mem_nil r)

/-! ## C7 -/

/-- C7: an account opened exactly 24h before the 21:45 UTC snapshot is
eligible, one opened less than 24h before is not — except that iSOL
accounts are always eligible on days before 2024-11-27 — and a
successful distribution only rewards owners of merged eligible
accounts. -/
theorem C7_account_age_rule :
    (∀ (a : SpAccount) (day : ℤ),
      a.opened_at = get_snapshot_time day - 86400 →
      is_at_least_24h_old a day = true) ∧
    (∀ (a : SpAccount) (day : ℤ),
      get_snapshot_time day - 86400 < a.opened_at →
      ¬(day < daysFromCivil 2024 11 27 ∧ a.asset = "iSOL") →
      is_at_least_24h_old a day = false) ∧
    (∀ (a : SpAccount) (day : ℤ),
      day < daysFromCivil 2024 11 27 → a.asset = "iSOL" →
      is_at_least_24h_old a day = true) ∧
    (∀ (api : SpApi) (day : ℤ) (epoch_indy : ℚ)
        (rs : List IndividualReward),
      sp_get_rewards_per_staker api day epoch_indy = .ok rs →
      ∀ r ∈ rs, ∃ m ∈ merge_duplicate_accounts
        ((api.accounts (get_snapshot_time day)).filter
          (fun a => is_at_least_24h_old a day)), r.pkh = m.owner) := by
  refine ⟨?_, ?_, ?_, ?_⟩
  · intro a day hopen
    unfold is_at_least_24h_old
    by_cases hc : day < daysFromCivil 2024 11 27 ∧ a.asset = "iSOL"
    · rw [if_pos hc]
    · rw [if_neg hc, decide_eq_true_eq]
      omega
  · intro a day hlt hn
    unfold is_at_least_24h_old
    rw [if_neg hn, decide_eq_false_iff_not]
    omega
  · intro a day h1 h2
    unfold is_at_least_24h_old
    rw [if_pos ⟨h1, h2⟩]
  · intro api day epoch_indy rs h
    exact (sp_get_rewards_per_staker_shape api day epoch_indy rs h).2

/-- C7 witness: the boundary cases at day 19673 (2023-11-12), whose
snapshot instant is 1699825500: opened exactly 24h before (eligible),
opened 1 second later (excluded), and an iSOL account opened at the
snapshot itself (still eligible). -/
theorem C7_account_age_rule_witness :
    is_at_least_24h_old ⟨"x", "iUSD", 1, 1699825500 - 86400⟩ 19673 = true ∧
    is_at_least_24h_old ⟨"x", "iUSD", 1, 1699825500 - 86399⟩ 19673 = false ∧
    is_at_least_24h_old ⟨"x", "iSOL", 1, 1699825500⟩ 19673 = true :=
  ⟨C7_account_age_rule.1 ⟨"x", "iUSD", 1, 1699825500 - 86400⟩ 19673
      (by decide),
    C7_account_age_rule.2.1 ⟨"x", "iUSD", 1, 1699825500 - 86399⟩ 19673
      (by decide) (by decide),
    C7_account_age_rule.2.2.1 ⟨"x", "iSOL", 1, 1699825500⟩ 19673
      (by decide) (by decide)⟩

/-! ## C10 -/

/-- C10: merging keeps exactly one record per distinct
`(owner, asset)` pair, with the pair's summed staked amount, and a
successful distribution returns exactly one reward per merged eligible
account (the count mismatch check). -/
theorem C10_merge_duplicate_accounts :
    (∀ l : List SpAccount,
      ((merge_duplicate_accounts l).map merged_key).Nodup) ∧
    (∀ (l : List SpAccount) (o s : String),
      key_weight (merge_duplicate_accounts l) o s = key_weight_src l o s) ∧
    (∀ (l : List SpAccount) (o s : String),
      (o, s) ∈ (merge_duplicate_accounts l).map merged_key ↔
        (o, s) ∈ l.map (fun a => (a.owner, a.asset))) ∧
    (∀ (api : SpApi) (day : ℤ) (epoch_indy : ℚ)
        (rs : List IndividualReward),
      sp_get_rewards_per_staker api day epoch_indy = .ok rs →
      rs.length = (merge_duplicate_accounts
        ((api.accounts (get_snapshot_time day)).filter
          (fun a => is_at_least_24h_old a day))).length) := by
  refine ⟨?_, ?_, ?_, ?_⟩
  · intro l
    exact merge_foldl_nodup l [] (by simp)
  · intro l o s
    have := merge_foldl_weight o s l [] (by simp)
    unfold merge_duplicate_accounts
    rw [this]
    show key_weight [] o s + key_weight_src l o s = key_weight_src l o s
    have h0 : key_weight [] o s = 0 := rfl
    rw [h0]
    ring
  · intro l o s
    have := merge_foldl_mem o s l []
    unfold merge_duplicate_accounts
    rw [this]
    simp
  · intro api day epoch_indy rs h
    exact (sp_get_rewards_per_staker_shape api day epoch_indy rs h).1

/-- C10 witness: the reward-count equality at a concrete successful
run (three eligible accounts, three rewards, day 2023-11-12). -/
theorem C10_merge_duplicate_accounts_witness :
    ([⟨3668/5, 19673, "bob", get_reward_expiration 19673,
        "SP reward for iBTC"⟩,
      ⟨3188/5, 19673, "carol", get_reward_expiration 19673,
        "SP reward for iETH"⟩,
      ⟨15574/5, 19673, "alice", get_reward_expiration 19673,
        "SP reward for iUSD"⟩] : List IndividualReward).length =
      (merge_duplicate_accounts
        ((exSpApi.accounts (get_snapshot_time 19673)).filter
          (fun a => is_at_least_24h_old a 19673))).length :=
  C10_merge_duplicate_accounts.2.2.2 exSpApi 19673 22431 _ (by decide)

/-! ## C3 -/

/-- C3 (amended): the liquidity-pool epoch orchestrator verifies that
the lovelace-rounded reward total matches the nominal epoch budget
within 0.01 (it cannot return otherwise); the stability-pool epoch
orchestrator performs no such verification: on the same example data it
succeeds for a budget its rounded total does not match. -/
theorem C3_epoch_sum_check :
    (∀ (api : LpApi) (epoch : ℤ) (epoch_indy : ℚ)
        (rs : List IndividualReward),
      lp_get_epoch_rewards_per_staker api epoch epoch_indy = .ok rs →
      |epoch_indy - (((rs.map get_indy_lovelaces).sum : ℤ) : ℚ) / 1000000| ≤
        0.01) ∧
    except_is_error (sp_get_epoch_rewards_per_staker exSpApi 448 20000) =
      false := by
  constructor
  · intro api epoch epoch_indy rs h
    simp only [lp_get_epoch_rewards_per_staker] at h
    cases hf : (get_epoch_snapshot_dates epoch).foldlM (fun acc day => do
        let rs ← lp_get_rewards_per_staker api day epoch_indy
        pure (acc ++ rs)) [] with
    | error e =>
      rw [hf] at h
      exact Except.noConfusion (show (Except.error e :
        Except String (List IndividualReward)) = .ok rs from h)
    | ok rewards =>
      rw [hf] at h
      simp only [except_bind_ok] at h
      by_cases hs : |epoch_indy -
          (((rewards.map get_indy_lovelaces).sum : ℤ) : ℚ) / 1000000| > 0.01
      · rw [if_pos hs] at h
        exact Except.noConfusion h
      · rw [if_neg hs] at h
        injection h with h
        subst h
        exact not_lt.mp hs
  · decide

/-- C3 counterexample: the stability-pool epoch orchestrator, run over
epoch 448 with its nominal budget 22431, returns rewards whose lovelace
total is 22430 INDY — 1 INDY short of the nominal budget, far outside
the 0.01 tolerance — without raising any error. -/
theorem C3_counterexample :
    (sp_get_epoch_rewards_per_staker exSpApi 448 22431).map
      (fun rs => (rs.map get_indy_lovelaces).sum) = .ok 22430000000 ∧
    ¬(|(22431 : ℚ) - ((22430000000 : ℤ) : ℚ) / 1000000| ≤ 0.01) :=
  ⟨by decide, by decide⟩

/-- C3 witness: the liquidity-pool check at a concrete successful
epoch run (budget 100, five daily rewards of 20). -/
theorem C3_epoch_sum_check_witness :
    |(100 : ℚ) -
      ((([⟨20, 19673, "staker1", get_reward_expiration 19673,
          "Reward for providing iUSD liquidity on Minswap"⟩,
        ⟨20, 19674, "staker1", get_reward_expiration 19674,
          "Reward for providing iUSD liquidity on Minswap"⟩,
        ⟨20, 19675, "staker1", get_reward_expiration 19675,
          "Reward for providing iUSD liquidity on Minswap"⟩,
        ⟨20, 19676, "staker1", get_reward_expiration 19676,
          "Reward for providing iUSD liquidity on Minswap"⟩,
        ⟨20, 19677, "staker1", get_reward_expiration 19677,
          "Reward for providing iUSD liquidity on Minswap"⟩] :
        List IndividualReward).map get_indy_lovelaces).sum : ℤ) / 1000000| ≤
      0.01 :=
  C3_epoch_sum_check.1 exLpApi 448 100 _ (by decide)
